import Mathlib

/-! # gogormx: order resolver (`gormx.Orders`) and blob store (`gormfs`)

A shallow embedding of `src/gormx/gorm_orders.go` and `src/xfs/gormfs/gormfs.go`.

Go strings are byte sequences; a byte is a natural number (below 256 for a
real string, a bound none of the functions below depends on).  The `*gorm.DB`
handle that `Orders` mutates is represented by the part of it that `Orders`
changes: the column list of its ORDER BY clause.
-/

namespace Gogormx

/-! ## Go strings -/

/-- A Go string: its bytes. -/
abbrev GoString := List Nat

/-- The bytes of an ASCII literal. -/
def ascii (s : String) : GoString := s.toList.map Char.toNat

/-- The comma byte. -/
def comma : Nat := 44

/-- The dash byte, the descending marker. -/
def dash : Nat := 45

/-! ## Library functions used by `Orders` -/

/-- Scanning loop of `str.FieldsByte`: `cur` holds the bytes of the field being
read (most recent first), the second argument is the unread input. -/
def FieldsByte.scan (b : Nat) : GoString → GoString → List GoString
  | cur, [] => if cur = [] then [] else [cur.reverse]
  | cur, c :: cs =>
    if c = b then
      if cur = [] then FieldsByte.scan b [] cs
      else cur.reverse :: FieldsByte.scan b [] cs
    else FieldsByte.scan b (c :: cur) cs

/-- The pango function `str.FieldsByte(s, b)`: splits `s` around each run of one or more
consecutive bytes `b`; separators at either end and repeated separators
delimit nothing, so every field returned is non-empty (the one-byte analogue
of `strings.Fields`). -/
def FieldsByte (s : GoString) (b : Nat) : List GoString :=
  FieldsByte.scan b [] s

/-- The function `str.Join(elems, sep)` (`strings.Join`): the elements concatenated, with
`sep` between consecutive ones. -/
def Join : List GoString → GoString → GoString
  | [], _ => []
  | [a], _ => a
  | a :: b :: rest, sep => a ++ sep ++ Join (b :: rest) sep

/-- The function `str.StartsWithByte(s, b)`: `len(s) > 0 && s[0] == b`. -/
def StartsWithByte (s : GoString) (b : Nat) : Bool :=
  match s with
  | [] => false
  | c :: _ => c == b

/-- The function `str.TrimPrefix(s, prefix)` (`strings.TrimPrefix`): `s` without the leading
`prefix` when it has it, else `s` unchanged. -/
def TrimPrefix (s pre : GoString) : GoString :=
  if pre.isPrefixOf s then s.drop pre.length else s

/-- The function `asg.DeleteFunc(s, del)`: removes the elements for which `del` holds,
keeping the others in order. -/
def DeleteFunc (s : List GoString) (del : GoString → Bool) : List GoString :=
  s.filter (fun x => !del x)

/-! ## gorm order clause -/

/-- The struct `clause.Column`, reduced to the field `Orders` sets. -/
structure Column where
  Name : GoString
  deriving DecidableEq, Repr

/-- The struct `clause.OrderByColumn`: one order directive. -/
structure OrderByColumn where
  Column : Column
  Desc : Bool
  deriving DecidableEq, Repr

/-- The statement under construction: the columns of its ORDER BY clause. -/
structure DB where
  orderBy : List OrderByColumn
  deriving DecidableEq, Repr

/-- The method `tx.Order(col)` for a `clause.OrderByColumn` value: the column is added after
the ones the statement already has. -/
def DB.Order (tx : DB) (col : OrderByColumn) : DB :=
  { tx with orderBy := tx.orderBy ++ [col] }

/-! ## `gorm_orders.go` -/

/-- Source function `addOrder(tx, o)`. -/
def addOrder (tx : DB) (o : GoString) : DB :=
  let desc := StartsWithByte o dash
  let o := if desc then o.drop 1 else o
  tx.Order { Column := { Name := o }, Desc := desc }

/-- One iteration of the first loop of `Orders`: the state is the statement
and the remaining defaults. -/
def Orders.step (st : DB × List GoString) (o : GoString) : DB × List GoString :=
  let tx := addOrder st.1 o
  if st.2.length > 0 then
    let o := TrimPrefix o [dash]
    (tx, DeleteFunc st.2 (fun s => o == TrimPrefix s [dash]))
  else
    (tx, st.2)

/-- Source function `Orders(tx, order, defaults...)`. -/
def Orders (tx : DB) (order : GoString) (defaults : List GoString) : DB :=
  let orders := FieldsByte order comma
  let defods := FieldsByte (Join defaults [comma]) comma
  let st := orders.foldl Orders.step (tx, defods)
  st.2.foldl addOrder st.1

/-! ## Vocabulary of the specification -/

/-- The tokens of an order string, as `Orders` reads them. -/
def userTokens (order : GoString) : List GoString :=
  FieldsByte order comma

/-- The tokens of the comma-joined defaults, as `Orders` reads them. -/
def defaultTokens (defaults : List GoString) : List GoString :=
  FieldsByte (Join defaults [comma]) comma

/-- Bare column name of a token: the token with one leading dash removed. -/
def bareName (t : GoString) : GoString :=
  match t with
  | [] => []
  | c :: cs => if c = dash then cs else c :: cs

/-- The directive the specification assigns to a token: descending when the
token starts with a dash, the column being the bare name. -/
def directiveOf (t : GoString) : OrderByColumn :=
  { Column := { Name := bareName t }, Desc := decide (t.head? = some dash) }

/-- The directives `Orders` appends to a statement that had `tx.orderBy`. -/
def appended (tx : DB) (order : GoString) (defaults : List GoString) :
    List OrderByColumn :=
  (Orders tx order defaults).orderBy.drop tx.orderBy.length

/-- Splitting at every separator byte, empty pieces kept (`strings.Split` for a
one-byte separator): the reading of "token" under which consecutive commas
delimit an empty token. -/
def splitByte (b : Nat) : GoString → List GoString
  | [] => [[]]
  | c :: cs =>
    if c = b then [] :: splitByte b cs
    else
      match splitByte b cs with
      | [] => [[c]]
      | p :: ps => (c :: p) :: ps

/-- The default tokens `Orders` keeps: those whose bare name is the bare name
of no user token. -/
def keptDefaults (order : GoString) (defaults : List GoString) : List GoString :=
  (defaultTokens defaults).filter
    (fun d => decide (bareName d ∉ (userTokens order).map bareName))

/-- Column names of a directive sequence. -/
def columnNames (ds : List OrderByColumn) : List GoString :=
  ds.map (fun d => d.Column.Name)

/-- Number of times the name `x` occurs in a list of names. -/
def occurrences (x : GoString) (l : List GoString) : Nat :=
  l.countP (fun y => decide (y = x))

/-! ## Library functions used by `gormfs` -/

/-- The slash byte, the path separator (`os.IsPathSeparator` on Unix). -/
def slash : Nat := 47

/-- The dot byte. -/
def dot : Nat := 46

/-- Loop of `filepath.Ext`, run over the path read backwards: `acc` is the
suffix already passed. -/
def Ext.scan : GoString → GoString → GoString
  | [], _ => []
  | c :: rest, acc =>
    if c = slash then []
    else if c = dot then c :: acc
    else Ext.scan rest (c :: acc)

/-- The function `filepath.Ext(path)`: the suffix beginning at the final dot in the final
element of `path`; empty if there is no dot. -/
def Ext (path : GoString) : GoString :=
  Ext.scan path.reverse []

/-- The function `filepath.Base(path)` on Unix (no volume name): `"."` for the empty path;
else trailing separators are stripped and the last element is returned,
`"/"` when nothing is left. -/
def Base (path : GoString) : GoString :=
  if path = [] then [dot]
  else
    let stripped := (path.reverse.dropWhile (fun c => decide (c = slash))).reverse
    let last := (stripped.reverse.takeWhile (fun c => decide (c ≠ slash))).reverse
    if last = [] then [slash] else last

/-- ASCII branch of `strings.ToLower`: the bytes `A` to `Z` are moved to `a` to `z`. -/
def asciiLower (s : GoString) : GoString :=
  s.map (fun c => if 65 ≤ c ∧ c ≤ 90 then c + 32 else c)

/-- The function `str.ToLower(s)` (`strings.ToLower`): a string of bytes below `0x80` takes the
ASCII branch; any other is mapped rune by rune through `unicode.ToLower`,
which is the argument `unicodeLower`. -/
def ToLower (unicodeLower : GoString → GoString) (s : GoString) : GoString :=
  if s.all (fun c => decide (c < 128)) then asciiLower s else unicodeLower s

/-- The function `str.NonEmpty(ss...)`: the first non-empty string of `ss`, `""` when there
is none. -/
def NonEmpty : List GoString → GoString
  | [] => []
  | s :: ss => if s ≠ [] then s else NonEmpty ss

/-! ## Errors -/

/-- Go error values: the two sentinels the store tests or returns, other
errors, and wrapping (`Unwrap`). -/
inductive GoError where
  | ErrRecordNotFound : GoError
  | ErrNotExist : GoError
  | other (code : Nat) : GoError
  | wrap (msg : Nat) (inner : GoError) : GoError
  deriving DecidableEq, Repr

/-- The function `errors.Is(err, target)` on a non-nil `err`: `err` or an error in its
`Unwrap` chain equals `target`. -/
def GoError.is : GoError → GoError → Bool
  | .wrap msg inner, target =>
    decide (GoError.wrap msg inner = target) || GoError.is inner target
  | e, target => decide (e = target)

/-- The function `errors.Is(err, target)` for a non-nil target: false on a nil `err`. -/
def errorsIs (err : Option GoError) (target : GoError) : Bool :=
  match err with
  | none => false
  | some e => GoError.is e target

/-! ## Records and the relation capability -/

/-- The struct `xfs.File`: `time.Time` is an instant, `Size` an `int64`. -/
structure File where
  ID : GoString
  Name : GoString
  Ext : GoString
  Tag : GoString
  Time : Int
  Size : Int
  Data : List Nat
  deriving DecidableEq, Repr

/-- The zero value `xfs.File{}`. -/
def File.zero : File :=
  { ID := [], Name := [], Ext := [], Tag := [], Time := 0, Size := 0, Data := [] }

/-- What a finished gorm call leaves in `r`: `r.Error` and `r.RowsAffected`. -/
structure Result where
  Error : Option GoError
  RowsAffected : Int
  deriving DecidableEq, Repr

/-- The gorm handle, as the store uses it, over a database state `σ`.
`Take` is `Table(tn).Omit(cols...).Where("id = ?", id).Take(f)` and yields
the `f` it filled; `Save` is `Table(tn).Save(fi)` (the record has no field
gorm fills in, so `fi` is left as built); `Exec` is `Exec(sql, args...)`;
`Updates` is `Table(tn).Where("id = ?", id).Updates(vs)`. -/
structure Gorm (σ : Type) where
  Take : σ → GoString → List GoString → GoString → File × Result
  Save : σ → GoString → File → σ × Result
  Exec : σ → GoString → List GoString → σ × Result
  Updates : σ → GoString → GoString → List (GoString × GoString) → σ × Result

/-! ## `gormfs.go` -/

/-- The struct `gfs`: the handle and the table name. -/
structure gfs (σ : Type) where
  db : Gorm σ
  tn : GoString

/-- Source function `FS(db, table)`. -/
def FS {σ : Type} (db : Gorm σ) (table : GoString) : gfs σ :=
  { db := db, tn := table }

/-- The struct `xfs.FSFile`, as `Open` builds it; `File` is a pointer. -/
structure FSFile (σ : Type) where
  XFS : gfs σ
  File : Option File

/-- Source method `FindFile(id)`. -/
def gfs.FindFile {σ : Type} (g : gfs σ) (s : σ) (id : GoString) :
    Option File × Option GoError :=
  let fr := g.db.Take s g.tn [ascii "data"] id
  if errorsIs fr.2.Error GoError.ErrRecordNotFound then (none, some GoError.ErrNotExist)
  else if fr.2.Error ≠ none then (none, fr.2.Error)
  else (some fr.1, none)

/-- Source method `Open(name)`. -/
def gfs.Open {σ : Type} (g : gfs σ) (s : σ) (name : GoString) :
    Option (FSFile σ) × Option GoError :=
  match g.FindFile s name with
  | (_, some err) => (none, some err)
  | (f, none) => (some { XFS := g, File := f }, none)

/-- Source method `SaveFile(id, filename, filetime, data, tag...)`: the record returned, the
error returned, and the state the backend is left in. -/
def gfs.SaveFile {σ : Type} (unicodeLower : GoString → GoString) (g : gfs σ) (s : σ)
    (id filename : GoString) (filetime : Int) (data : List Nat) (tag : List GoString) :
    (File × Option GoError) × σ :=
  let name := Base filename
  let fext := ToLower unicodeLower (Ext filename)
  let fi : File :=
    { ID := id, Name := name, Ext := fext, Tag := NonEmpty tag,
      Size := (data.length : Int), Time := filetime, Data := data }
  let r := g.db.Save s g.tn fi
  ((fi, r.2.Error), r.1)

/-- Source method `ReadFile(id)`. -/
def gfs.ReadFile {σ : Type} (g : gfs σ) (s : σ) (id : GoString) :
    Option (List Nat) × Option GoError :=
  let fr := g.db.Take s g.tn [] id
  if errorsIs fr.2.Error GoError.ErrRecordNotFound then (none, some GoError.ErrNotExist)
  else if fr.2.Error ≠ none then (none, fr.2.Error)
  else (some fr.1.Data, none)

/-- The statement and arguments `CopyFile` hands to `Exec`. -/
def CopyFile.stmt (tn src dst : GoString) (tag : List GoString) :
    GoString × List GoString :=
  let sql := ascii "INSERT INTO " ++ tn ++ ascii " (id, name, ext, tag, time, size, data) "
  if tag.length = 0 then
    (sql ++ (ascii "SELECT ?, name, ext, tag, time, size, data FROM " ++ tn ++
      ascii " WHERE id = ?"), [dst, src])
  else
    (sql ++ (ascii "SELECT ? AS id, name, ext, ? AS tag, time, size, data FROM " ++ tn ++
      ascii " WHERE id = ?"), [dst, NonEmpty tag, src])

/-- Source method `CopyFile(src, dst, tag...)`: the error returned and the new state. -/
def gfs.CopyFile {σ : Type} (g : gfs σ) (s : σ) (src dst : GoString)
    (tag : List GoString) : Option GoError × σ :=
  let q := CopyFile.stmt g.tn src dst tag
  let r := g.db.Exec s q.1 q.2
  if r.2.Error ≠ none then (r.2.Error, r.1)
  else if r.2.RowsAffected = 0 then (some GoError.ErrNotExist, r.1)
  else (none, r.1)

/-- The map `vs` that `MoveFile` hands to `Updates`. -/
def MoveFile.vs (dst : GoString) (tag : List GoString) : List (GoString × GoString) :=
  let vs := [(ascii "id", dst)]
  if tag.length > 0 then vs ++ [(ascii "tag", NonEmpty tag)] else vs

/-- Source method `MoveFile(src, dst, tag...)`: the error returned and the new state. -/
def gfs.MoveFile {σ : Type} (g : gfs σ) (s : σ) (src dst : GoString)
    (tag : List GoString) : Option GoError × σ :=
  let r := g.db.Updates s g.tn src (MoveFile.vs dst tag)
  if r.2.Error ≠ none then (r.2.Error, r.1)
  else if r.2.RowsAffected = 0 then (some GoError.ErrNotExist, r.1)
  else (none, r.1)

/-! ## A table keyed by id -/

/-- A row of the table, without its key. -/
structure Row where
  Name : GoString
  Ext : GoString
  Tag : GoString
  Time : Int
  Size : Int
  Data : List Nat
  deriving DecidableEq, Repr

/-- The table the store is bound to: at most one row per id. -/
abbrev Table := GoString → Option Row

/-- The record made of an id and its row; the columns named in `omitted` are left
at their zero value (only `data` is ever omitted). -/
def Row.toFile (id : GoString) (omitted : List GoString) (r : Row) : File :=
  { ID := id, Name := r.Name, Ext := r.Ext, Tag := r.Tag, Time := r.Time, Size := r.Size,
    Data := if ascii "data" ∈ omitted then [] else r.Data }

/-- Point lookup on the table: the row, or record-not-found. -/
def Table.Take (t : Table) (_tn : GoString) (omitted : List GoString) (id : GoString) :
    File × Result :=
  match t id with
  | none => (File.zero, { Error := some GoError.ErrRecordNotFound, RowsAffected := 0 })
  | some r => (r.toFile id omitted, { Error := none, RowsAffected := 1 })

/-- Upsert on the table. -/
def Table.Save (t : Table) (_tn : GoString) (fi : File) : Table × Result :=
  (fun k => if k = fi.ID then
      some { Name := fi.Name, Ext := fi.Ext, Tag := fi.Tag, Time := fi.Time,
             Size := fi.Size, Data := fi.Data }
    else t k,
   { Error := none, RowsAffected := 1 })

/-- The statement `UPDATE tn SET ... WHERE id = src` on the table.  No row matched: zero rows
affected.  A new id already held by another row: a key violation, nothing
changed.  `foundRows` tells whether a matched row that the update leaves as
it was counts as affected (PostgreSQL, SQLite) or not (MySQL by default). -/
def Table.Updates (foundRows : Bool) (t : Table) (_tn : GoString) (src : GoString)
    (vs : List (GoString × GoString)) : Table × Result :=
  match t src with
  | none => (t, { Error := none, RowsAffected := 0 })
  | some r =>
    let dst := (vs.lookup (ascii "id")).getD src
    let r1 : Row := { r with Tag := (vs.lookup (ascii "tag")).getD r.Tag }
    if dst ≠ src ∧ (t dst).isSome then
      (t, { Error := some (GoError.other 0), RowsAffected := 0 })
    else if dst = src ∧ r1 = r ∧ foundRows = false then
      (t, { Error := none, RowsAffected := 0 })
    else
      (fun k => if k = dst then some r1 else if k = src then none else t k,
       { Error := none, RowsAffected := 1 })

/-- The gorm handle over a table; raw statements are not interpreted. -/
def Table.gorm (foundRows : Bool) : Gorm Table :=
  { Take := Table.Take
    Save := Table.Save
    Exec := fun t _ _ => (t, { Error := some (GoError.other 1), RowsAffected := 0 })
    Updates := Table.Updates foundRows }

/-- A table with the single record `a`. -/
def Table.single (a : GoString) (r : Row) : Table :=
  fun k => if k = a then some r else none

/-- A backend on which every call fails with the error `e`, touching nothing. -/
def Gorm.failing (e : GoError) : Gorm Unit :=
  { Take := fun _ _ _ _ => (File.zero, { Error := some e, RowsAffected := 0 })
    Save := fun _ _ _ => ((), { Error := some e, RowsAffected := 0 })
    Exec := fun _ _ _ => ((), { Error := some e, RowsAffected := 0 })
    Updates := fun _ _ _ _ => ((), { Error := some e, RowsAffected := 0 }) }

/-! ## Lemmas on the order resolver -/

theorem TrimPrefix_dash (t : GoString) : TrimPrefix t [dash] = bareName t := by
  cases t with
  | nil => rfl
  | cons c cs =>
    by_cases h : c = dash
    · subst h; simp [TrimPrefix, bareName, List.isPrefixOf]
    · have h2 : dash ≠ c := fun e => h e.symm
      simp [TrimPrefix, bareName, List.isPrefixOf, h, h2]

theorem addOrder_orderBy (tx : DB) (o : GoString) :
    (addOrder tx o).orderBy = tx.orderBy ++ [directiveOf o] := by
  cases o with
  | nil => rfl
  | cons c cs =>
    by_cases h : c = dash
    · subst h; simp [addOrder, DB.Order, directiveOf, bareName, StartsWithByte]
    · simp [addOrder, DB.Order, directiveOf, bareName, StartsWithByte, h]

theorem foldl_addOrder_orderBy (l : List GoString) (tx : DB) :
    (l.foldl addOrder tx).orderBy = tx.orderBy ++ l.map directiveOf := by
  induction l generalizing tx with
  | nil => simp
  | cons o l ih => simp [List.foldl_cons, ih, addOrder_orderBy]

theorem step_fst (st : DB × List GoString) (o : GoString) :
    (Orders.step st o).1.orderBy = st.1.orderBy ++ [directiveOf o] := by
  unfold Orders.step
  split <;> simp [addOrder_orderBy]

theorem step_snd (st : DB × List GoString) (o : GoString) :
    (Orders.step st o).2 = st.2.filter (fun d => decide (bareName d ≠ bareName o)) := by
  unfold Orders.step
  split
  · simp only [DeleteFunc, TrimPrefix_dash]
    apply List.filter_congr
    intro d _
    by_cases h : bareName o = bareName d
    · simp [h]
    · have h2 : ¬ bareName d = bareName o := fun e => h e.symm
      simp [h, h2]
  · rename_i h
    have : st.2 = [] := by
      cases hs : st.2 with
      | nil => rfl
      | cons a l => rw [hs] at h; simp at h
    simp [this]

theorem foldl_step_fst (os : List GoString) (st : DB × List GoString) :
    (os.foldl Orders.step st).1.orderBy = st.1.orderBy ++ os.map directiveOf := by
  induction os generalizing st with
  | nil => simp
  | cons o os ih => simp [List.foldl_cons, ih, step_fst]

theorem foldl_step_snd (os : List GoString) (st : DB × List GoString) :
    (os.foldl Orders.step st).2 =
      st.2.filter (fun d => decide (bareName d ∉ os.map bareName)) := by
  induction os generalizing st with
  | nil => simp
  | cons o os ih =>
    simp only [List.foldl_cons, ih, step_snd, List.filter_filter]
    apply List.filter_congr
    intro d _
    simp only [List.map_cons, List.mem_cons, not_or, Bool.decide_and, Bool.and_comm]

/-- What `Orders` leaves in the statement: the directives already there, one
per user token, one per kept default token. -/
theorem Orders_orderBy (tx : DB) (order : GoString) (defaults : List GoString) :
    (Orders tx order defaults).orderBy =
      tx.orderBy ++ ((userTokens order).map directiveOf ++
        (keptDefaults order defaults).map directiveOf) := by
  simp [Orders, foldl_addOrder_orderBy, foldl_step_fst, foldl_step_snd, userTokens,
    keptDefaults, defaultTokens, List.append_assoc]

theorem appended_eq (tx : DB) (order : GoString) (defaults : List GoString) :
    appended tx order defaults =
      (userTokens order).map directiveOf ++ (keptDefaults order defaults).map directiveOf := by
  simp [appended, Orders_orderBy]

/-! ## `FieldsByte` against plain splitting -/

theorem splitByte_cons (b : Nat) (s : GoString) : ∃ p ps, splitByte b s = p :: ps := by
  induction s with
  | nil => exact ⟨[], [], rfl⟩
  | cons c cs ih =>
    obtain ⟨p, ps, h⟩ := ih
    by_cases hc : c = b
    · exact ⟨[], splitByte b cs, by simp [splitByte, hc]⟩
    · exact ⟨c :: p, ps, by simp [splitByte, hc, h]⟩

theorem scan_eq (b : Nat) (s : GoString) :
    ∀ (cur p : GoString) (ps : List GoString), splitByte b s = p :: ps →
      FieldsByte.scan b cur s =
        ((cur.reverse ++ p) :: ps).filter (fun q => decide (q ≠ [])) := by
  induction s with
  | nil =>
    intro cur p ps h
    simp only [splitByte, List.cons.injEq] at h
    obtain ⟨rfl, rfl⟩ := h
    by_cases hc : cur = []
    · simp [FieldsByte.scan, hc]
    · simp [FieldsByte.scan, hc, List.filter_cons]
  | cons c cs ih =>
    intro cur p ps h
    obtain ⟨p0, ps0, h0⟩ := splitByte_cons b cs
    by_cases hc : c = b
    · simp only [splitByte, hc, if_true, List.cons.injEq] at h
      obtain ⟨rfl, rfl⟩ := h
      have ih0 := ih [] p0 ps0 h0
      simp only [List.reverse_nil, List.nil_append] at ih0
      by_cases hcur : cur = []
      · simp [FieldsByte.scan, hc, hcur, ih0, h0, List.filter_cons]
      · simp [FieldsByte.scan, hc, hcur, ih0, h0, List.filter_cons]
    · simp only [splitByte, hc, if_false, h0, List.cons.injEq] at h
      obtain ⟨rfl, rfl⟩ := h
      have ih1 := ih (c :: cur) p0 ps0 h0
      simp [FieldsByte.scan, hc, ih1]

/-- The fields of `FieldsByte` are the non-empty pieces between separators. -/
theorem FieldsByte_eq_filter_splitByte (s : GoString) (b : Nat) :
    FieldsByte s b = (splitByte b s).filter (fun q => decide (q ≠ [])) := by
  obtain ⟨p, ps, h⟩ := splitByte_cons b s
  rw [FieldsByte, scan_eq b s [] p ps h, h]
  simp

theorem FieldsByte_ne_nil (s : GoString) (b : Nat) : ∀ t ∈ FieldsByte s b, t ≠ [] := by
  intro t ht
  rw [FieldsByte_eq_filter_splitByte] at ht
  simpa using (List.mem_filter.mp ht).2

theorem occurrences_pos {x : GoString} {l : List GoString} :
    1 ≤ occurrences x l ↔ x ∈ l := by
  unfold occurrences
  rw [Nat.succ_le_iff, List.countP_pos_iff]
  simp

theorem occurrences_eq_zero {x : GoString} {l : List GoString} :
    occurrences x l = 0 ↔ x ∉ l := by
  have := @occurrences_pos x l
  constructor
  · intro h hm; have := this.mpr hm; omega
  · intro h; by_contra h0; exact h (this.mp (by omega))

theorem occurrences_append (x : GoString) (l₁ l₂ : List GoString) :
    occurrences x (l₁ ++ l₂) = occurrences x l₁ + occurrences x l₂ := by
  simp [occurrences, List.countP_append]

theorem occurrences_le_one_of_nodup (x : GoString) (l : List GoString) (h : l.Nodup) :
    occurrences x l ≤ 1 := by
  induction l with
  | nil => simp [occurrences]
  | cons a l ih =>
    have hn := List.nodup_cons.mp h
    by_cases ha : a = x
    · have h0 : occurrences x l = 0 := occurrences_eq_zero.mpr (ha ▸ hn.1)
      have : occurrences x (a :: l) = occurrences x l + 1 := by
        simp [occurrences, List.countP_cons, ha]
      omega
    · have : occurrences x (a :: l) = occurrences x l := by
        simp [occurrences, List.countP_cons, ha]
      have := ih hn.2
      omega

theorem count_kept (order : GoString) (defaults : List GoString) (x : GoString) :
    occurrences x ((keptDefaults order defaults).map bareName) =
      if x ∈ (userTokens order).map bareName then 0
      else occurrences x ((defaultTokens defaults).map bareName) := by
  unfold keptDefaults
  split
  · rename_i hx
    rw [occurrences_eq_zero]
    intro hmem
    obtain ⟨d, hd, rfl⟩ := List.mem_map.mp hmem
    have := (List.mem_filter.mp hd).2
    simp only [decide_eq_true_eq] at this
    exact this hx
  · rename_i hx
    simp only [occurrences, List.countP_map, List.countP_filter]
    apply List.countP_congr
    intro d _
    simp only [Function.comp_apply, Bool.and_eq_true, decide_eq_true_eq]
    constructor
    · intro h; exact h.1
    · intro h; exact ⟨h, by rw [h]; exact hx⟩

theorem columnNames_appended (tx : DB) (order : GoString) (defaults : List GoString) :
    columnNames (appended tx order defaults) =
      (userTokens order).map bareName ++ (keptDefaults order defaults).map bareName := by
  rw [appended_eq]
  simp [columnNames, directiveOf, Function.comp_def]

theorem kept_disjoint (order : GoString) (defaults : List GoString) :
    List.Disjoint ((userTokens order).map bareName)
      ((keptDefaults order defaults).map bareName) := by
  intro x hu hk
  have h := count_kept order defaults x
  rw [if_pos hu, occurrences_eq_zero] at h
  exact h hk

/-! ## Claims on the order resolver -/

/-- C1: the sequence `Orders` appends is one directive per user token, in token
order (descending iff the token starts with a dash, column the token without
that one dash), then one directive per default token whose bare name is the
bare name of no user token, in default order; `Orders("name,-age", "age,id")`
appends `[{name, asc}, {age, desc}, {id, asc}]`. -/
theorem C1_orders_sequence :
    (∀ (tx : DB) (order : GoString) (defaults : List GoString),
      (Orders tx order defaults).orderBy = tx.orderBy ++ appended tx order defaults ∧
      appended tx order defaults =
        (userTokens order).map
            (fun t => { Column := { Name := bareName t },
                        Desc := decide (t.head? = some dash) }) ++
          ((defaultTokens defaults).filter
            (fun d => decide (∀ o ∈ userTokens order, bareName d ≠ bareName o))).map
            (fun t => { Column := { Name := bareName t },
                        Desc := decide (t.head? = some dash) })) ∧
    appended { orderBy := [] } (ascii "name,-age") [ascii "age,id"] =
      [ { Column := { Name := ascii "name" }, Desc := false },
        { Column := { Name := ascii "age" }, Desc := true },
        { Column := { Name := ascii "id" }, Desc := false } ] := by
  refine ⟨?_, by decide⟩
  intro tx order defaults
  refine ⟨?_, ?_⟩
  · rw [appended_eq, Orders_orderBy]
  · rw [appended_eq]
    congr 2
    unfold keptDefaults
    apply List.filter_congr
    intro d _
    simp only [List.mem_map, not_exists, not_and, decide_eq_decide]
    constructor
    · intro h o ho e; exact h o ho e.symm
    · intro h o ho e; exact h o ho e.symm

/-- C2: user direction wins.  When some user token has bare name `x`, no default
token with bare name `x` is kept, and the directives with column `x` in the
appended sequence are exactly those of the user tokens, directions included;
with order `"-x"` and default `"x"` the sequence is `x` descending, once. -/
theorem C2_user_direction_wins (tx : DB) (order : GoString) (defaults : List GoString)
    (x : GoString) (hx : ∃ o ∈ userTokens order, bareName o = x) :
    (∀ d ∈ defaultTokens defaults, bareName d = x → d ∉ keptDefaults order defaults) ∧
    (appended tx order defaults).filter (fun d => decide (d.Column.Name = x)) =
      ((userTokens order).map directiveOf).filter (fun d => decide (d.Column.Name = x)) ∧
    appended { orderBy := [] } (ascii "-x") [ascii "x"] =
      [ { Column := { Name := ascii "x" }, Desc := true } ] := by
  have hx2 : x ∈ (userTokens order).map bareName := List.mem_map.mpr hx
  refine ⟨?_, ?_, by decide⟩
  · intro d _ hd hk
    have := (List.mem_filter.mp hk).2
    simp only [decide_eq_true_eq] at this
    exact this (hd ▸ hx2)
  · rw [appended_eq, List.filter_append]
    have : ((keptDefaults order defaults).map directiveOf).filter
        (fun d => decide (d.Column.Name = x)) = [] := by
      rw [List.filter_eq_nil_iff]
      intro a ha
      obtain ⟨d, hd, rfl⟩ := List.mem_map.mp ha
      have := (List.mem_filter.mp hd).2
      simp only [decide_eq_true_eq] at this
      simp only [directiveOf, decide_eq_true_eq]
      intro e
      exact this (e ▸ hx2)
    rw [this, List.append_nil]

/-- Instance of C2 at order `"-x,y"` with defaults `"x,z"`. -/
theorem C2_user_direction_wins_witness :
    (∃ o ∈ userTokens (ascii "-x,y"), bareName o = ascii "x") ∧
    (appended { orderBy := [] } (ascii "-x,y") [ascii "x,z"]).filter
        (fun d => decide (d.Column.Name = ascii "x")) =
      ((userTokens (ascii "-x,y")).map directiveOf).filter
        (fun d => decide (d.Column.Name = ascii "x")) :=
  ⟨⟨ascii "-x", by decide, by decide⟩,
   (C2_user_direction_wins { orderBy := [] } (ascii "-x,y") [ascii "x,z"] (ascii "x")
      ⟨ascii "-x", by decide, by decide⟩).2.1⟩

/-- C3, as stated, fails: with an empty order and defaults `"id,id"` the column
`id` is appended twice; with order `"id,id"` and default `"id"` it is
appended twice through the user tokens. -/
theorem C3_counterexample :
    (ascii "id" ∈ (defaultTokens [ascii "id,id"]).map bareName ∧
      occurrences (ascii "id") (columnNames (appended { orderBy := [] } (ascii "") [ascii "id,id"])) = 2) ∧
    (ascii "id" ∈ (defaultTokens [ascii "id"]).map bareName ∧
      occurrences (ascii "id") (columnNames (appended { orderBy := [] } (ascii "id,id") [ascii "id"])) = 2) := by
  decide

/-- C3, amended: a bare name `x` of a default token is the column of at least one
appended directive, and never through both kinds of entry: when a user token
has bare name `x` no default with that name is kept and `x` appears as often
as among the user tokens; otherwise it appears as often as among the default
tokens.  It appears exactly once when no bare name is repeated among the user
tokens and none among the default tokens. -/
theorem C3_default_columns_present (tx : DB) (order : GoString) (defaults : List GoString)
    (x : GoString) (hx : x ∈ (defaultTokens defaults).map bareName) :
    1 ≤ occurrences x (columnNames (appended tx order defaults)) ∧
    (x ∈ (userTokens order).map bareName →
      x ∉ (keptDefaults order defaults).map bareName ∧
      occurrences x (columnNames (appended tx order defaults)) =
        occurrences x ((userTokens order).map bareName)) ∧
    (x ∉ (userTokens order).map bareName →
      x ∈ (keptDefaults order defaults).map bareName ∧
      occurrences x (columnNames (appended tx order defaults)) =
        occurrences x ((defaultTokens defaults).map bareName)) ∧
    (((userTokens order).map bareName).Nodup →
      ((defaultTokens defaults).map bareName).Nodup →
      occurrences x (columnNames (appended tx order defaults)) = 1) := by
  have hc := count_kept order defaults x
  have hcol : occurrences x (columnNames (appended tx order defaults)) =
      occurrences x ((userTokens order).map bareName) +
        occurrences x ((keptDefaults order defaults).map bareName) := by
    rw [columnNames_appended, occurrences_append]
  have hd : 1 ≤ occurrences x ((defaultTokens defaults).map bareName) :=
    occurrences_pos.mpr hx
  by_cases hu : x ∈ (userTokens order).map bareName
  · rw [if_pos hu] at hc
    have hu1 : 1 ≤ occurrences x ((userTokens order).map bareName) := occurrences_pos.mpr hu
    refine ⟨by omega, fun _ => ⟨occurrences_eq_zero.mp hc, by omega⟩,
      fun h => absurd hu h, fun hn _ => ?_⟩
    have : occurrences x ((userTokens order).map bareName) ≤ 1 :=
      occurrences_le_one_of_nodup x _ hn
    omega
  · rw [if_neg hu] at hc
    have hu0 : occurrences x ((userTokens order).map bareName) = 0 := occurrences_eq_zero.mpr hu
    refine ⟨by omega, fun h => absurd h hu, fun _ => ⟨?_, by omega⟩, fun _ hn => ?_⟩
    · apply occurrences_pos.mp
      omega
    · have : occurrences x ((defaultTokens defaults).map bareName) ≤ 1 :=
        occurrences_le_one_of_nodup x _ hn
      omega

/-- Instance of C3 (amended) at order `"name,-age"` with defaults `"age,id"`. -/
theorem C3_default_columns_present_witness :
    ascii "age" ∈ (defaultTokens [ascii "age,id"]).map bareName ∧
    occurrences (ascii "age") (columnNames (appended { orderBy := [] } (ascii "name,-age") [ascii "age,id"])) = 1 :=
  ⟨by decide,
   (C3_default_columns_present { orderBy := [] } (ascii "name,-age") [ascii "age,id"]
      (ascii "age") (by decide)).2.2.2 (by decide) (by decide)⟩

/-- C4, as stated, fails: order `"a,-a"` appends two directives with column `a`,
and defaults `"x,x"` under an empty order append two with column `x`. -/
theorem C4_counterexample :
    columnNames (appended { orderBy := [] } (ascii "a,-a") []) = [ascii "a", ascii "a"] ∧
    ¬ (columnNames (appended { orderBy := [] } (ascii "a,-a") [])).Nodup ∧
    ¬ (columnNames (appended { orderBy := [] } (ascii "") [ascii "x,x"])).Nodup := by
  decide

/-- C4, amended: a user token and a kept default token never have the same
column; the appended sequence is duplicate-free exactly when no bare name is
repeated among the user tokens and none among the kept default tokens, so it
is whenever no bare name is repeated among the user tokens and none among
the default tokens. -/
theorem C4_duplicate_free (tx : DB) (order : GoString) (defaults : List GoString) :
    List.Disjoint ((userTokens order).map bareName)
      ((keptDefaults order defaults).map bareName) ∧
    ((columnNames (appended tx order defaults)).Nodup ↔
      ((userTokens order).map bareName).Nodup ∧
        ((keptDefaults order defaults).map bareName).Nodup) ∧
    (((userTokens order).map bareName).Nodup →
      ((defaultTokens defaults).map bareName).Nodup →
      (columnNames (appended tx order defaults)).Nodup) := by
  have hdis := kept_disjoint order defaults
  have hiff : (columnNames (appended tx order defaults)).Nodup ↔
      ((userTokens order).map bareName).Nodup ∧
        ((keptDefaults order defaults).map bareName).Nodup := by
    rw [columnNames_appended, List.nodup_append]
    constructor
    · intro h; exact ⟨h.1, h.2.1⟩
    · intro h; exact ⟨h.1, h.2, hdis⟩
  refine ⟨hdis, hiff, fun hu hd => hiff.mpr ⟨hu, ?_⟩⟩
  exact hd.sublist (List.Sublist.map bareName (List.filter_sublist _))

/-- Instance of C4 (amended) at order `"name,-age"` with defaults `"age,id"`. -/
theorem C4_duplicate_free_witness :
    ((userTokens (ascii "name,-age")).map bareName).Nodup ∧
    ((defaultTokens [ascii "age,id"]).map bareName).Nodup ∧
    (columnNames (appended { orderBy := [] } (ascii "name,-age") [ascii "age,id"])).Nodup :=
  ⟨by decide, by decide,
   (C4_duplicate_free { orderBy := [] } (ascii "name,-age") [ascii "age,id"]).2.2
      (by decide) (by decide)⟩

/-- C9, as stated, fails: for `"a,,b"` the empty piece between the two commas
is no token; `Orders` appends `[{a, asc}, {b, asc}]`, with no directive of
zero-length column in between. -/
theorem C9_counterexample :
    splitByte comma (ascii "a,,b") = [ascii "a", [], ascii "b"] ∧
    appended { orderBy := [] } (ascii "a,,b") [] =
      [ { Column := { Name := ascii "a" }, Desc := false },
        { Column := { Name := ascii "b" }, Desc := false } ] ∧
    appended { orderBy := [] } (ascii "a,,b") [] ≠
      [ { Column := { Name := ascii "a" }, Desc := false },
        { Column := { Name := [] }, Desc := false },
        { Column := { Name := ascii "b" }, Desc := false } ] := by
  decide

/-- C9, amended: empty tokens are dropped.  The user tokens are the non-empty
pieces between commas, in order, so no token is empty; `Orders` appends one
directive per non-empty piece, then those of the kept defaults (for `"a,,b"`
with no defaults: `[{a, asc}, {b, asc}]`), and always returns. -/
theorem C9_empty_tokens_dropped :
    (∀ (tx : DB) (order : GoString) (defaults : List GoString),
      userTokens order = (splitByte comma order).filter (fun p => decide (p ≠ [])) ∧
      (∀ t ∈ userTokens order, t ≠ []) ∧
      appended tx order defaults =
        ((splitByte comma order).filter (fun p => decide (p ≠ []))).map directiveOf ++
          (keptDefaults order defaults).map directiveOf) ∧
    appended { orderBy := [] } (ascii "a,,b") [] =
      [ { Column := { Name := ascii "a" }, Desc := false },
        { Column := { Name := ascii "b" }, Desc := false } ] := by
  refine ⟨?_, by decide⟩
  intro tx order defaults
  have h : userTokens order = (splitByte comma order).filter (fun p => decide (p ≠ [])) :=
    FieldsByte_eq_filter_splitByte order comma
  refine ⟨h, FieldsByte_ne_nil order comma, ?_⟩
  rw [appended_eq, h]

/-- C10: `Orders` appends at least as many directives as there are user tokens and
at most as many as user tokens plus default tokens; when the order has no
token, it appends exactly the directives of the default tokens, in default order. -/
theorem C10_appended_length (tx : DB) (order : GoString) (defaults : List GoString) :
    (userTokens order).length ≤ (appended tx order defaults).length ∧
    (appended tx order defaults).length ≤
      (userTokens order).length + (defaultTokens defaults).length ∧
    (userTokens order = [] →
      appended tx order defaults = (defaultTokens defaults).map directiveOf ∧
      (appended tx order defaults).length = (defaultTokens defaults).length) := by
  have hk : (keptDefaults order defaults).length ≤ (defaultTokens defaults).length :=
    List.length_filter_le _ _
  refine ⟨?_, ?_, ?_⟩
  · rw [appended_eq]; simp
  · rw [appended_eq]; simp; omega
  · intro h
    have hkd : keptDefaults order defaults = defaultTokens defaults := by
      simp [keptDefaults, h]
    rw [appended_eq, hkd, h]
    simp

/-- Instance of C10 at the order `","`, which has no token, with defaults `"-age"`, `"id"`. -/
theorem C10_appended_length_witness :
    userTokens (ascii ",") = [] ∧
    appended { orderBy := [] } (ascii ",") [ascii "-age", ascii "id"] =
      [ { Column := { Name := ascii "age" }, Desc := true },
        { Column := { Name := ascii "id" }, Desc := false } ] :=
  ⟨by decide,
   ((C10_appended_length { orderBy := [] } (ascii ",") [ascii "-age", ascii "id"]).2.2
      (by decide)).1.trans (by decide)⟩

/-! ## Lemmas on the blob store -/

theorem Ext_scan_takeWhile (l acc : GoString) :
    Ext.scan (l.takeWhile (fun c => decide (c ≠ slash))) acc = Ext.scan l acc := by
  induction l generalizing acc with
  | nil => rfl
  | cons c rest ih =>
    by_cases hc : c = slash
    · simp [List.takeWhile, Ext.scan, hc]
    · by_cases hd : c = dot
      · simp [List.takeWhile, Ext.scan, hc, hd]
      · have hp : decide (c ≠ slash) = true := by simp [hc]
        simp only [List.takeWhile, hp, Ext.scan, hc, hd, if_false]
        exact ih _

theorem reverse_of_getLast {path : GoString} (hne : path ≠ []) :
    ∃ c rest, path.reverse = c :: rest ∧ path.getLast? = some c := by
  cases hr : path.reverse with
  | nil => exact absurd (List.reverse_eq_nil_iff.mp hr) hne
  | cons c rest =>
    refine ⟨c, rest, rfl, ?_⟩
    have : path = rest.reverse ++ [c] := by
      rw [← List.reverse_reverse path, hr]; simp
    rw [this]; simp

/-- On a non-empty path that does not end in a separator, the extension of the
base name is the extension of the path. -/
theorem Ext_Base (path : GoString) (hne : path ≠ []) (hl : path.getLast? ≠ some slash) :
    Ext (Base path) = Ext path := by
  obtain ⟨c, rest, hr, hc⟩ := reverse_of_getLast hne
  have hcs : c ≠ slash := fun e => hl (by rw [hc, e])
  have hlast : (c :: rest).takeWhile (fun c => decide (c ≠ slash)) ≠ [] := by
    simp [List.takeWhile, hcs]
  unfold Base
  rw [if_neg hne]
  simp only [hr, List.dropWhile, hcs, decide_False, List.reverse_reverse]
  have : ((c :: rest).takeWhile (fun c => decide (c ≠ slash))).reverse ≠ [] := by
    simpa using hlast
  rw [if_neg this]
  unfold Ext
  rw [List.reverse_reverse, Ext_scan_takeWhile, hr]

/-- The extension of the empty path and of a path ending in a separator is
empty. -/
theorem Ext_eq_nil (path : GoString) (h : path = [] ∨ path.getLast? = some slash) :
    Ext path = [] := by
  rcases h with h | h
  · subst h; rfl
  · have hne : path ≠ [] := by intro e; subst e; simp at h
    obtain ⟨c, rest, hr, hc⟩ := reverse_of_getLast hne
    have hcs : c = slash := by rw [hc] at h; exact Option.some.inj h
    unfold Ext
    rw [hr, hcs]
    simp [Ext.scan]

theorem errorsIs_none (target : GoError) : errorsIs none target = false := rfl

theorem FindFile_cases {σ : Type} (g : gfs σ) (s : σ) (id : GoString) :
    (errorsIs (g.db.Take s g.tn [ascii "data"] id).2.Error GoError.ErrRecordNotFound = true →
      g.FindFile s id = (none, some GoError.ErrNotExist)) ∧
    (errorsIs (g.db.Take s g.tn [ascii "data"] id).2.Error GoError.ErrRecordNotFound = false →
      (g.db.Take s g.tn [ascii "data"] id).2.Error ≠ none →
      g.FindFile s id = (none, (g.db.Take s g.tn [ascii "data"] id).2.Error)) ∧
    ((g.db.Take s g.tn [ascii "data"] id).2.Error = none →
      g.FindFile s id = (some (g.db.Take s g.tn [ascii "data"] id).1, none)) := by
  refine ⟨?_, ?_, ?_⟩
  · intro h; simp [gfs.FindFile, h]
  · intro h hn; simp [gfs.FindFile, h, hn]
  · intro h; simp [gfs.FindFile, h, errorsIs_none]

theorem FindFile_err_iff {σ : Type} (g : gfs σ) (s : σ) (id : GoString) :
    (g.FindFile s id).2 = some GoError.ErrNotExist ↔
      (errorsIs (g.db.Take s g.tn [ascii "data"] id).2.Error GoError.ErrRecordNotFound = true ∨
        (g.db.Take s g.tn [ascii "data"] id).2.Error = some GoError.ErrNotExist) := by
  unfold gfs.FindFile
  by_cases h : errorsIs (g.db.Take s g.tn [ascii "data"] id).2.Error
      GoError.ErrRecordNotFound = true
  · simp [h]
  · by_cases hn : (g.db.Take s g.tn [ascii "data"] id).2.Error = none
    · simp [hn, errorsIs_none]
    · simp [h, hn]

theorem Open_of_FindFile {σ : Type} (g : gfs σ) (s : σ) (name : GoString) :
    (g.Open s name).2 = (g.FindFile s name).2 ∧
    (g.Open s name).1.bind (fun h => h.File) =
      (if (g.FindFile s name).2 = none then (g.FindFile s name).1 else none) ∧
    ((g.FindFile s name).2 ≠ none → (g.Open s name).1.isNone = true) := by
  unfold gfs.Open
  rcases hff : g.FindFile s name with ⟨f, e⟩
  cases e with
  | some err => simp
  | none => simp

/-! ## Claims on the blob store -/

/-- C6, as stated, fails: for the filename `"a.txt/"` the saved record has name
`"a.txt"` and an empty ext, not `".txt"`; for the empty filename it has name
`"."` and an empty ext, not `"."`. -/
theorem C6_counterexample :
    ((FS (Table.gorm true) (ascii "files")).SaveFile (fun s => s) (fun _ => none)
        (ascii "k") (ascii "a.txt/") 0 [] []).1.1.Name = ascii "a.txt" ∧
    ((FS (Table.gorm true) (ascii "files")).SaveFile (fun s => s) (fun _ => none)
        (ascii "k") (ascii "a.txt/") 0 [] []).1.1.Ext = [] ∧
    ToLower (fun s => s) (Ext (ascii "a.txt")) = ascii ".txt" ∧
    ((FS (Table.gorm true) (ascii "files")).SaveFile (fun s => s) (fun _ => none)
        (ascii "k") [] 0 [] []).1.1.Name = ascii "." ∧
    ((FS (Table.gorm true) (ascii "files")).SaveFile (fun s => s) (fun _ => none)
        (ascii "k") [] 0 [] []).1.1.Ext = [] ∧
    ToLower (fun s => s) (Ext (ascii ".")) = ascii "." := by
  decide

/-- C6, amended: the ext of the saved record is the lower-cased extension of
`filename`.  It is the lower-cased extension of the name of the record whenever
`filename` is non-empty and does not end in a path separator; for an empty
filename and for one ending in a separator it is empty. -/
theorem C6_ext_of_filename (σ : Type) (unicodeLower : GoString → GoString) (g : gfs σ)
    (s : σ) (id filename : GoString) (filetime : Int) (data : List Nat)
    (tag : List GoString) :
    (g.SaveFile unicodeLower s id filename filetime data tag).1.1.Name = Base filename ∧
    (g.SaveFile unicodeLower s id filename filetime data tag).1.1.Ext =
      ToLower unicodeLower (Ext filename) ∧
    (filename ≠ [] → filename.getLast? ≠ some slash →
      (g.SaveFile unicodeLower s id filename filetime data tag).1.1.Ext =
        ToLower unicodeLower
          (Ext (g.SaveFile unicodeLower s id filename filetime data tag).1.1.Name)) ∧
    (filename = [] ∨ filename.getLast? = some slash →
      (g.SaveFile unicodeLower s id filename filetime data tag).1.1.Ext = []) := by
  refine ⟨rfl, rfl, ?_, ?_⟩
  · intro hne hl
    show ToLower unicodeLower (Ext filename) = ToLower unicodeLower (Ext (Base filename))
    rw [Ext_Base filename hne hl]
  · intro h
    show ToLower unicodeLower (Ext filename) = []
    rw [Ext_eq_nil filename h]
    rfl

/-- Instance of C6 (amended) at the filename `"dir.d/report.PDF"`. -/
theorem C6_ext_of_filename_witness :
    ascii "dir.d/report.PDF" ≠ [] ∧
    (ascii "dir.d/report.PDF").getLast? ≠ some slash ∧
    ((FS (Table.gorm true) (ascii "files")).SaveFile (fun s => s) (fun _ => none)
        (ascii "k") (ascii "dir.d/report.PDF") 0 [] []).1.1.Ext =
      ToLower (fun s => s)
        (Ext ((FS (Table.gorm true) (ascii "files")).SaveFile (fun s => s) (fun _ => none)
          (ascii "k") (ascii "dir.d/report.PDF") 0 [] []).1.1.Name) :=
  ⟨by decide, by decide,
   (C6_ext_of_filename Table (fun s => s) (FS (Table.gorm true) (ascii "files"))
      (fun _ => none) (ascii "k") (ascii "dir.d/report.PDF") 0 [] []).2.2.1
      (by decide) (by decide)⟩

/-- C7, as stated, fails: a backend error that is itself the NotFound error is
neither record-not-found nor a wrapper of it, and it is non-nil; the lookups
and `CopyFile`, `MoveFile` pass it through, so they return NotFound outside
the cases the claim allows. -/
theorem C7_counterexample :
    errorsIs (some GoError.ErrNotExist) GoError.ErrRecordNotFound = false ∧
    (FS (Gorm.failing GoError.ErrNotExist) (ascii "files")).FindFile () (ascii "a") =
      (none, some GoError.ErrNotExist) ∧
    (FS (Gorm.failing GoError.ErrNotExist) (ascii "files")).ReadFile () (ascii "a") =
      (none, some GoError.ErrNotExist) ∧
    ((FS (Gorm.failing GoError.ErrNotExist) (ascii "files")).Open () (ascii "a")).2 =
      some GoError.ErrNotExist ∧
    ((Gorm.failing GoError.ErrNotExist).Updates () (ascii "files") (ascii "a")
      (MoveFile.vs (ascii "b") [])).2.Error ≠ none ∧
    ((FS (Gorm.failing GoError.ErrNotExist) (ascii "files")).MoveFile () (ascii "a")
      (ascii "b") []).1 = some GoError.ErrNotExist ∧
    ((FS (Gorm.failing GoError.ErrNotExist) (ascii "files")).CopyFile () (ascii "a")
      (ascii "b") []).1 = some GoError.ErrNotExist := by
  decide

/-- C7, amended: as a function of the backend's result, `FindFile`, `ReadFile` and
`Open` return NotFound when the backend error is or wraps record-not-found,
return any other non-nil backend error as it is, and otherwise succeed;
`CopyFile` and `MoveFile` return a non-nil backend error as it is (also with
zero rows affected), return NotFound when the error is nil and zero rows
were affected, and otherwise succeed.  Hence NotFound is returned exactly in
the case named or when the backend error is itself the NotFound error.
An error wraps record-not-found when record-not-found is in its `Unwrap`
chain, at any depth. -/
theorem C7_error_mapping (σ : Type) (g : gfs σ) (s : σ) (id dst : GoString)
    (tag : List GoString) :
    -- FindFile
    ((errorsIs (g.db.Take s g.tn [ascii "data"] id).2.Error GoError.ErrRecordNotFound = true →
        g.FindFile s id = (none, some GoError.ErrNotExist)) ∧
      (errorsIs (g.db.Take s g.tn [ascii "data"] id).2.Error GoError.ErrRecordNotFound = false →
        (g.db.Take s g.tn [ascii "data"] id).2.Error ≠ none →
        g.FindFile s id = (none, (g.db.Take s g.tn [ascii "data"] id).2.Error)) ∧
      ((g.db.Take s g.tn [ascii "data"] id).2.Error = none →
        g.FindFile s id = (some (g.db.Take s g.tn [ascii "data"] id).1, none)) ∧
      ((g.FindFile s id).2 = some GoError.ErrNotExist ↔
        (errorsIs (g.db.Take s g.tn [ascii "data"] id).2.Error
            GoError.ErrRecordNotFound = true ∨
          (g.db.Take s g.tn [ascii "data"] id).2.Error = some GoError.ErrNotExist))) ∧
    -- Open
    ((errorsIs (g.db.Take s g.tn [ascii "data"] id).2.Error GoError.ErrRecordNotFound = true →
        (g.Open s id).1.isNone = true ∧ (g.Open s id).2 = some GoError.ErrNotExist) ∧
      (errorsIs (g.db.Take s g.tn [ascii "data"] id).2.Error GoError.ErrRecordNotFound = false →
        (g.db.Take s g.tn [ascii "data"] id).2.Error ≠ none →
        (g.Open s id).1.isNone = true ∧
          (g.Open s id).2 = (g.db.Take s g.tn [ascii "data"] id).2.Error) ∧
      ((g.db.Take s g.tn [ascii "data"] id).2.Error = none →
        (g.Open s id).1.bind (fun h => h.File) =
            some (g.db.Take s g.tn [ascii "data"] id).1 ∧
          (g.Open s id).2 = none) ∧
      ((g.Open s id).2 = some GoError.ErrNotExist ↔
        (errorsIs (g.db.Take s g.tn [ascii "data"] id).2.Error
            GoError.ErrRecordNotFound = true ∨
          (g.db.Take s g.tn [ascii "data"] id).2.Error = some GoError.ErrNotExist))) ∧
    -- ReadFile
    ((errorsIs (g.db.Take s g.tn [] id).2.Error GoError.ErrRecordNotFound = true →
        g.ReadFile s id = (none, some GoError.ErrNotExist)) ∧
      (errorsIs (g.db.Take s g.tn [] id).2.Error GoError.ErrRecordNotFound = false →
        (g.db.Take s g.tn [] id).2.Error ≠ none →
        g.ReadFile s id = (none, (g.db.Take s g.tn [] id).2.Error)) ∧
      ((g.db.Take s g.tn [] id).2.Error = none →
        g.ReadFile s id = (some (g.db.Take s g.tn [] id).1.Data, none)) ∧
      ((g.ReadFile s id).2 = some GoError.ErrNotExist ↔
        (errorsIs (g.db.Take s g.tn [] id).2.Error GoError.ErrRecordNotFound = true ∨
          (g.db.Take s g.tn [] id).2.Error = some GoError.ErrNotExist))) ∧
    -- CopyFile
    (((g.db.Exec s (CopyFile.stmt g.tn id dst tag).1
          (CopyFile.stmt g.tn id dst tag).2).2.Error ≠ none →
        (g.CopyFile s id dst tag).1 =
          (g.db.Exec s (CopyFile.stmt g.tn id dst tag).1
            (CopyFile.stmt g.tn id dst tag).2).2.Error) ∧
      ((g.db.Exec s (CopyFile.stmt g.tn id dst tag).1
          (CopyFile.stmt g.tn id dst tag).2).2.Error = none →
        ((g.db.Exec s (CopyFile.stmt g.tn id dst tag).1
            (CopyFile.stmt g.tn id dst tag).2).2.RowsAffected = 0 →
          (g.CopyFile s id dst tag).1 = some GoError.ErrNotExist) ∧
        ((g.db.Exec s (CopyFile.stmt g.tn id dst tag).1
            (CopyFile.stmt g.tn id dst tag).2).2.RowsAffected ≠ 0 →
          (g.CopyFile s id dst tag).1 = none)) ∧
      ((g.CopyFile s id dst tag).1 = some GoError.ErrNotExist ↔
        (((g.db.Exec s (CopyFile.stmt g.tn id dst tag).1
              (CopyFile.stmt g.tn id dst tag).2).2.Error = none ∧
            (g.db.Exec s (CopyFile.stmt g.tn id dst tag).1
              (CopyFile.stmt g.tn id dst tag).2).2.RowsAffected = 0) ∨
          (g.db.Exec s (CopyFile.stmt g.tn id dst tag).1
            (CopyFile.stmt g.tn id dst tag).2).2.Error = some GoError.ErrNotExist))) ∧
    -- MoveFile
    (((g.db.Updates s g.tn id (MoveFile.vs dst tag)).2.Error ≠ none →
        (g.MoveFile s id dst tag).1 = (g.db.Updates s g.tn id (MoveFile.vs dst tag)).2.Error) ∧
      ((g.db.Updates s g.tn id (MoveFile.vs dst tag)).2.Error = none →
        ((g.db.Updates s g.tn id (MoveFile.vs dst tag)).2.RowsAffected = 0 →
          (g.MoveFile s id dst tag).1 = some GoError.ErrNotExist) ∧
        ((g.db.Updates s g.tn id (MoveFile.vs dst tag)).2.RowsAffected ≠ 0 →
          (g.MoveFile s id dst tag).1 = none)) ∧
      ((g.MoveFile s id dst tag).1 = some GoError.ErrNotExist ↔
        (((g.db.Updates s g.tn id (MoveFile.vs dst tag)).2.Error = none ∧
            (g.db.Updates s g.tn id (MoveFile.vs dst tag)).2.RowsAffected = 0) ∨
          (g.db.Updates s g.tn id (MoveFile.vs dst tag)).2.Error =
            some GoError.ErrNotExist))) ∧
    -- what "is or wraps record-not-found" means
    (errorsIs none GoError.ErrRecordNotFound = false ∧
      errorsIs (some GoError.ErrRecordNotFound) GoError.ErrRecordNotFound = true ∧
      errorsIs (some GoError.ErrNotExist) GoError.ErrRecordNotFound = false ∧
      (∀ code, errorsIs (some (GoError.other code)) GoError.ErrRecordNotFound = false) ∧
      (∀ msg inner, errorsIs (some (GoError.wrap msg inner)) GoError.ErrRecordNotFound =
        errorsIs (some inner) GoError.ErrRecordNotFound)) := by
  refine ⟨?_, ?_, ?_, ?_, ?_, ?_⟩
  · exact ⟨(FindFile_cases g s id).1, (FindFile_cases g s id).2.1,
      (FindFile_cases g s id).2.2, FindFile_err_iff g s id⟩
  · have ho := Open_of_FindFile g s id
    refine ⟨?_, ?_, ?_, ?_⟩
    · intro h
      have hf := (FindFile_cases g s id).1 h
      have h1 := ho.1
      have h3 := ho.2.2
      rw [hf] at h1 h3
      exact ⟨h3 (by simp), h1⟩
    · intro h hn
      have hf := (FindFile_cases g s id).2.1 h hn
      have h1 := ho.1
      have h3 := ho.2.2
      rw [hf] at h1 h3
      exact ⟨h3 hn, h1⟩
    · intro h
      have hf := (FindFile_cases g s id).2.2 h
      have h1 := ho.1
      have h2 := ho.2.1
      rw [hf] at h1 h2
      exact ⟨by simpa using h2, h1⟩
    · rw [ho.1]; exact FindFile_err_iff g s id
  · unfold gfs.ReadFile
    by_cases h : errorsIs (g.db.Take s g.tn [] id).2.Error GoError.ErrRecordNotFound = true
    · have hn : (g.db.Take s g.tn [] id).2.Error ≠ none := by
        intro e; rw [e] at h; simp [errorsIs_none] at h
      simp [h, hn]
    · by_cases hn : (g.db.Take s g.tn [] id).2.Error = none
      · simp [hn, errorsIs_none]
      · simp [h, hn]
  · unfold gfs.CopyFile
    by_cases hn : (g.db.Exec s (CopyFile.stmt g.tn id dst tag).1
        (CopyFile.stmt g.tn id dst tag).2).2.Error = none
    · by_cases hr : (g.db.Exec s (CopyFile.stmt g.tn id dst tag).1
          (CopyFile.stmt g.tn id dst tag).2).2.RowsAffected = 0
      · simp [hn, hr]
      · simp [hn, hr]
    · simp [hn]
  · unfold gfs.MoveFile
    by_cases hn : (g.db.Updates s g.tn id (MoveFile.vs dst tag)).2.Error = none
    · by_cases hr : (g.db.Updates s g.tn id (MoveFile.vs dst tag)).2.RowsAffected = 0
      · simp [hn, hr]
      · simp [hn, hr]
    · simp [hn]
  · refine ⟨rfl, rfl, rfl, fun _ => rfl, fun msg inner => ?_⟩
    simp [errorsIs, GoError.is]

/-- Instance of C7 (amended) at a lookup whose backend error wraps, twice over,
record-not-found: the lookup returns NotFound, not the wrapper. -/
theorem C7_error_mapping_witness :
    errorsIs
        ((Gorm.failing (GoError.wrap 3 (GoError.wrap 1 GoError.ErrRecordNotFound))).Take ()
          (ascii "files") [ascii "data"] (ascii "a")).2.Error
        GoError.ErrRecordNotFound = true ∧
    (FS (Gorm.failing (GoError.wrap 3 (GoError.wrap 1 GoError.ErrRecordNotFound)))
        (ascii "files")).FindFile () (ascii "a") = (none, some GoError.ErrNotExist) :=
  ⟨by decide,
   (C7_error_mapping Unit
      (FS (Gorm.failing (GoError.wrap 3 (GoError.wrap 1 GoError.ErrRecordNotFound)))
        (ascii "files")) () (ascii "a") (ascii "b") []).1.1 (by decide)⟩

theorem lookup_id_vs (dst : GoString) :
    (MoveFile.vs dst []).lookup (ascii "id") = some dst := by
  simp [MoveFile.vs, List.lookup]

theorem lookup_tag_vs (dst : GoString) :
    (MoveFile.vs dst []).lookup (ascii "tag") = none := by
  have h : (ascii "tag" == ascii "id") = false := by decide
  simp [MoveFile.vs, List.lookup, h]

/-- A successful move to another id, on the table: the row of `a` is now the
row of `b`, `a` has none, every other id keeps what it had. -/
theorem move_table (foundRows : Bool) (tn : GoString) (t : Table) (a b : GoString)
    (hab : a ≠ b)
    (hok : ((FS (Table.gorm foundRows) tn).MoveFile t a b []).1 = none) :
    ∃ r, t a = some r ∧
      ((FS (Table.gorm foundRows) tn).MoveFile t a b []).2 =
        (fun k => if k = b then some r else if k = a then none else t k) := by
  have hba : b ≠ a := fun e => hab e.symm
  cases hta : t a with
  | none =>
    simp [gfs.MoveFile, FS, Table.gorm, Table.Updates, hta] at hok
  | some r =>
    refine ⟨r, rfl, ?_⟩
    by_cases hb : (t b).isSome = true
    · simp [gfs.MoveFile, FS, Table.gorm, Table.Updates, hta, lookup_id_vs, hba, hb] at hok
    · simp [gfs.MoveFile, FS, Table.gorm, Table.Updates, hta, lookup_id_vs, lookup_tag_vs,
        hba, hb]

/-- C8, as stated, fails for `a = b`: on a backend that counts matched rows,
`MoveFile(a, a)` on a table holding `a` succeeds and `Open(a)` still
succeeds afterwards. -/
theorem C8_counterexample :
    ((FS (Table.gorm true) (ascii "files")).MoveFile
        (Table.single (ascii "a")
          { Name := ascii "n.txt", Ext := ascii ".txt", Tag := [], Time := 1, Size := 2,
            Data := [0, 1] })
        (ascii "a") (ascii "a") []).1 = none ∧
    ((FS (Table.gorm true) (ascii "files")).Open
        ((FS (Table.gorm true) (ascii "files")).MoveFile
          (Table.single (ascii "a")
            { Name := ascii "n.txt", Ext := ascii ".txt", Tag := [], Time := 1, Size := 2,
              Data := [0, 1] })
          (ascii "a") (ascii "a") []).2
        (ascii "a")).2 = none ∧
    ((FS (Table.gorm true) (ascii "files")).Open
        ((FS (Table.gorm true) (ascii "files")).MoveFile
          (Table.single (ascii "a")
            { Name := ascii "n.txt", Ext := ascii ".txt", Tag := [], Time := 1, Size := 2,
              Data := [0, 1] })
          (ascii "a") (ascii "a") []).2
        (ascii "a")).1.bind (fun h => h.File) =
      some { ID := ascii "a", Name := ascii "n.txt", Ext := ascii ".txt", Tag := [],
             Time := 1, Size := 2, Data := [] } := by
  decide

/-- C8, amended: over a table keyed by id, for all distinct ids `a` and `b`: after
`MoveFile(a, b)` with no tag argument succeeds, `Open(a)` fails with
NotFound and `Open(b)` succeeds with the metadata `a` had before, under the
id `b`; the row moved from `a` to `b` unchanged and no other id is touched. -/
theorem C8_move_then_open (foundRows : Bool) (tn : GoString) (t : Table) (a b : GoString)
    (hab : a ≠ b)
    (hok : ((FS (Table.gorm foundRows) tn).MoveFile t a b []).1 = none) :
    ∃ f : File,
      (FS (Table.gorm foundRows) tn).FindFile t a = (some f, none) ∧
      ((FS (Table.gorm foundRows) tn).Open
          ((FS (Table.gorm foundRows) tn).MoveFile t a b []).2 a).1.isNone = true ∧
      ((FS (Table.gorm foundRows) tn).Open
          ((FS (Table.gorm foundRows) tn).MoveFile t a b []).2 a).2 =
        some GoError.ErrNotExist ∧
      ((FS (Table.gorm foundRows) tn).Open
          ((FS (Table.gorm foundRows) tn).MoveFile t a b []).2 b).2 = none ∧
      ((FS (Table.gorm foundRows) tn).Open
          ((FS (Table.gorm foundRows) tn).MoveFile t a b []).2 b).1.bind (fun h => h.File) =
        some { f with ID := b } ∧
      ((FS (Table.gorm foundRows) tn).MoveFile t a b []).2 b = t a ∧
      ((FS (Table.gorm foundRows) tn).MoveFile t a b []).2 a = none ∧
      (∀ k, k ≠ a → k ≠ b →
        ((FS (Table.gorm foundRows) tn).MoveFile t a b []).2 k = t k) := by
  obtain ⟨r, hta, ht⟩ := move_table foundRows tn t a b hab hok
  rw [ht]
  refine ⟨r.toFile a [ascii "data"], ?_, ?_, ?_, ?_, ?_, ?_, ?_, ?_⟩
  · simp [gfs.FindFile, FS, Table.gorm, Table.Take, hta, errorsIs_none]
  · simp [gfs.Open, gfs.FindFile, FS, Table.gorm, Table.Take, hab, errorsIs, GoError.is]
  · simp [gfs.Open, gfs.FindFile, FS, Table.gorm, Table.Take, hab, errorsIs, GoError.is]
  · simp [gfs.Open, gfs.FindFile, FS, Table.gorm, Table.Take, errorsIs_none]
  · simp [gfs.Open, gfs.FindFile, FS, Table.gorm, Table.Take, errorsIs_none, Row.toFile]
  · simp [hta]
  · simp [hab]
  · intro k hka hkb
    simp [hka, hkb]

/-- Instance of C8 (amended) at a move from `"a"` to `"b"` on a table holding `"a"`. -/
theorem C8_move_then_open_witness :
    ascii "a" ≠ ascii "b" ∧
    ((FS (Table.gorm false) (ascii "files")).MoveFile
        (Table.single (ascii "a")
          { Name := ascii "n.txt", Ext := ascii ".txt", Tag := [], Time := 1, Size := 2,
            Data := [0, 1] })
        (ascii "a") (ascii "b") []).1 = none ∧
    ∃ f : File,
      (FS (Table.gorm false) (ascii "files")).FindFile
          (Table.single (ascii "a")
            { Name := ascii "n.txt", Ext := ascii ".txt", Tag := [], Time := 1, Size := 2,
              Data := [0, 1] })
          (ascii "a") = (some f, none) ∧
      ((FS (Table.gorm false) (ascii "files")).Open
          ((FS (Table.gorm false) (ascii "files")).MoveFile
            (Table.single (ascii "a")
              { Name := ascii "n.txt", Ext := ascii ".txt", Tag := [], Time := 1, Size := 2,
                Data := [0, 1] })
            (ascii "a") (ascii "b") []).2 (ascii "b")).1.bind (fun h => h.File) =
        some { f with ID := ascii "b" } :=
  ⟨by decide, by decide,
   (C8_move_then_open false (ascii "files")
      (Table.single (ascii "a")
        { Name := ascii "n.txt", Ext := ascii ".txt", Tag := [], Time := 1, Size := 2,
          Data := [0, 1] })
      (ascii "a") (ascii "b") (by decide) (by decide)).imp
      (fun _ h => ⟨h.1, h.2.2.2.2.1⟩)⟩

end Gogormx
